import Mathlib

/-!
Verification of the Aisle Studio client core: the branch/version state
machine, the streaming generation controller, and the adaptive media-fit
search (static/js/chat.js and static/js/app.js), formalised as a shallow
embedding.  JavaScript object identity is modelled by an explicit `ref`
allocation counter, the asynchronous call order by explicit event traces,
and external collaborators (JSON parsing, JPEG encoding, modal dialogs)
by function parameters.  Stream lines are modelled as `List Char` so that
the JavaScript string primitives (`startsWith`, `slice`, `trim`) stay
executable in proofs.
-/

namespace Aisle

/-- Data fields of a chat message, without object identity. -/
structure MsgData where
  id : String
  role : String
  content : String
  thoughts : String
deriving DecidableEq

/-- A chat message as a heap object: `ref` models JavaScript object identity
(which allocation the object is), the remaining fields are the message data. -/
structure Message where
  ref : Nat
  id : String
  role : String
  content : String
  thoughts : String
deriving DecidableEq

instance : Inhabited Message := ⟨⟨0, "", "", "", ""⟩⟩

/-- Forget the object identity of a message. -/
def Message.data (m : Message) : MsgData :=
  ⟨m.id, m.role, m.content, m.thoughts⟩

/-- One alternative continuation stored at a branch point (chat.js).
`bid` is the opaque branch id (`crypto.randomUUID()` in the source, drawn
from the allocation counter here). -/
structure Branch where
  bid : Nat
  tail : List Message
deriving DecidableEq

instance : Inhabited Branch := ⟨⟨0, []⟩⟩

/-- A branch point: the set of alternatives for one anchor and which is active. -/
structure BranchPoint where
  active : Nat
  branches : List Branch
deriving DecidableEq

instance : Inhabited BranchPoint := ⟨⟨0, []⟩⟩

/-- The client chat state the branch operations act on: the live message list,
the anchor-id-keyed branch state, the `App.isGenerating` flag, and the
allocation counter used to model fresh object identities. -/
structure ChatState where
  messages : List Message
  branchState : List (String × BranchPoint)
  isGenerating : Bool
  nextRef : Nat
deriving DecidableEq

/-- JavaScript `Array.prototype.findIndex`: index of the first element
satisfying the predicate, `-1` if there is none. -/
def jsFindIndex {α : Type} (p : α → Bool) : List α → Int
  | [] => -1
  | a :: rest =>
      if p a then 0
      else
        let r := jsFindIndex p rest
        if r < 0 then -1 else r + 1

/-- Index of the last message of the contiguous run of `user` messages that
starts right after index `idx`; mirrors the `while` loop of
`Chat._resolveRerunAnchorIndex` that advances `endIdx` as long as the next
message has role `user`. -/
def userRunEnd (messages : List Message) (idx : Nat) : Nat :=
  idx + ((messages.drop (idx + 1)).takeWhile (fun m => m.role == "user")).length

/-- Embedding of `Chat._resolveRerunAnchorIndex` (chat.js): the anchor index
for a rerun/branch action on the message `msgId`. -/
def resolveRerunAnchorIndex (msgId : String) (messages : List Message) : Int :=
  let idx := jsFindIndex (fun m => m.id == msgId) messages
  if idx < 0 then -1
  else
    let msg := messages.getD idx.toNat default
    if msg.role == "model" || msg.role == "assistant" then idx - 1
    else (userRunEnd messages idx.toNat : Int)

/-- Modelled from the spec: `App.getBranchPoint` is called by the branch
operations in chat.js but its definition is not among the provided sources.
Per the spec the branch state is a "mapping from anchor-id to BranchPoint",
so this is the map lookup, returning the entry for the anchor when present. -/
def getBranchPoint (anchorId : String) (st : ChatState) : Option BranchPoint :=
  (st.branchState.find? (fun q => q.1 == anchorId)).map Prod.snd

/-- Store a branch point under an anchor id, replacing the existing entry
(JavaScript mutates the object held in the map in place). -/
def setBranchPoint (anchorId : String) (bp : BranchPoint) (st : ChatState) : ChatState :=
  { st with branchState :=
      st.branchState.map (fun q => if q.1 == anchorId then (q.1, bp) else q) }

/-- Modelled from the spec: `App._clone` is called by the branch operations in
chat.js but its definition is not among the provided sources.  Per the spec it
is a "structural deep-copy at the two specific points (branch capture, branch
activation)"; fresh `ref`s model the new object identities the copy creates,
all message data is preserved. -/
def cloneMessages : List Message → Nat → List Message × Nat
  | [], n => ([], n)
  | m :: rest, n =>
      let r := cloneMessages rest (n + 1)
      ({ m with ref := n } :: r.1, r.2)

/-- Embedding of `Chat._ensureBranchPoint` (chat.js): return the existing
branch point for the anchor, or create one whose single branch captures a
deep copy of the current suffix after the anchor.  (`App._ensureBranchState`,
absent from the sources, is modelled from the spec as the branch-state map
itself, which the state always carries.) -/
def ensureBranchPoint (anchorId : String) (st : ChatState) : BranchPoint × ChatState :=
  match getBranchPoint anchorId st with
  | some bp => (bp, st)
  | none =>
      let idx := jsFindIndex (fun m => m.id == anchorId) st.messages
      let c := if 0 ≤ idx then cloneMessages (st.messages.drop (idx.toNat + 1)) st.nextRef
               else ([], st.nextRef)
      let bp : BranchPoint := { active := 0, branches := [{ bid := c.2, tail := c.1 }] }
      (bp, { st with branchState := st.branchState ++ [(anchorId, bp)], nextRef := c.2 + 1 })

/-- Observable side effects of a rerun action, in execution order.  `save`
is the completed persistence write (`App.saveChat` resolving) and carries the
message list it persisted; `generate` is the generation request
(`App.generateResponse`) being issued. -/
inductive Event
  | save (msgs : List Message)
  | render
  | generate
deriving DecidableEq

/-- Embedding of `Chat.rerunFrom` (chat.js): truncate the live sequence to the
anchor, clear the active branch tail, then persist, re-render and start
generation.  Returns the new state and the side effects in order. -/
def rerunFrom (msgId : String) (st : ChatState) : ChatState × List Event :=
  if st.isGenerating then (st, []) else
  let anchorIdx := resolveRerunAnchorIndex msgId st.messages
  if anchorIdx < 0 then (st, []) else
  let k := anchorIdx.toNat
  let anchor := st.messages.getD k default
  let es := ensureBranchPoint anchor.id st
  let point := es.1
  let st1 := es.2
  let st2 := { st1 with messages := st1.messages.take (k + 1) }
  let cleared := { (point.branches.getD point.active default) with tail := ([] : List Message) }
  let point2 := { point with branches := point.branches.set point.active cleared }
  let st3 := setBranchPoint anchor.id point2 st2
  (st3, [Event.save st3.messages, Event.render, Event.generate])

/-- Embedding of `Chat.branchRerunFrom` (chat.js): append a fresh empty-tail
sibling branch, make it active, truncate the live sequence to the anchor,
then persist, re-render and start generation. -/
def branchRerunFrom (msgId : String) (st : ChatState) : ChatState × List Event :=
  if st.isGenerating then (st, []) else
  let anchorIdx := resolveRerunAnchorIndex msgId st.messages
  if anchorIdx < 0 then (st, []) else
  let k := anchorIdx.toNat
  let anchor := st.messages.getD k default
  let es := ensureBranchPoint anchor.id st
  let point := es.1
  let st1 := es.2
  let point2 := { point with
    branches := point.branches ++ [{ bid := st1.nextRef, tail := ([] : List Message) }],
    active := point.branches.length }
  let st2 := setBranchPoint anchor.id point2 { st1 with nextRef := st1.nextRef + 1 }
  let st3 := { st2 with messages := st2.messages.take (k + 1) }
  (st3, [Event.save st3.messages, Event.render, Event.generate])

/-- Embedding of `Chat.shiftBranch` (chat.js): move `active` by `delta` when
the result stays in range, then replace the live suffix after the anchor with
a deep copy of the newly active branch tail. -/
def shiftBranch (anchorId : String) (delta : Int) (st : ChatState) : ChatState :=
  if st.isGenerating then st else
  match getBranchPoint anchorId st with
  | none => st
  | some point =>
      let next := (point.active : Int) + delta
      if next < 0 || (point.branches.length : Int) ≤ next then st else
      let nextN := next.toNat
      let st1 := setBranchPoint anchorId { point with active := nextN } st
      let anchorIdx := jsFindIndex (fun m => m.id == anchorId) st1.messages
      if anchorIdx < 0 then st1 else
      let c := cloneMessages (point.branches.getD nextN default).tail st1.nextRef
      { st1 with
        messages := st1.messages.take (anchorIdx.toNat + 1) ++ c.1,
        nextRef := c.2 }

/-- Embedding of `Chat.deleteActiveBranch` (chat.js): refuse when only one
branch remains; otherwise remove the active branch, move `active` to
`max 0 (removedIndex - 1)` and swap that branch's tail in as the live suffix. -/
def deleteActiveBranch (anchorId : String) (st : ChatState) : ChatState :=
  match getBranchPoint anchorId st with
  | none => st
  | some point =>
      if point.branches.length ≤ 1 then st else
      let deleteIdx := point.active
      let branches2 := point.branches.eraseIdx deleteIdx
      let active2 := deleteIdx - 1
      let point2 : BranchPoint := { active := active2, branches := branches2 }
      let st1 := setBranchPoint anchorId point2 st
      let anchorIdx := jsFindIndex (fun m => m.id == anchorId) st1.messages
      if anchorIdx < 0 then st1 else
      let c := cloneMessages (branches2.getD active2 default).tail st1.nextRef
      { st1 with
        messages := st1.messages.take (anchorIdx.toNat + 1) ++ c.1,
        nextRef := c.2 }

/-- One branch-state operation, as reachable from the UI. -/
inductive BranchOp
  | rerun (msgId : String)
  | branchRerun (msgId : String)
  | shift (anchorId : String) (delta : Int)
  | deleteActive (anchorId : String)

/-- Apply one branch operation to the chat state. -/
def applyBranchOp : BranchOp → ChatState → ChatState
  | .rerun m, st => (rerunFrom m st).1
  | .branchRerun m, st => (branchRerunFrom m st).1
  | .shift a d, st => shiftBranch a d st
  | .deleteActive a, st => deleteActiveBranch a st

/-- Apply a sequence of branch operations in order. -/
def applyBranchOps (ops : List BranchOp) (st : ChatState) : ChatState :=
  ops.foldl (fun s op => applyBranchOp op s) st

/-- The branch-point invariant of the spec: every stored branch point has at
least one branch and a valid active index. -/
def BranchInv (st : ChatState) : Prop :=
  ∀ q ∈ st.branchState, 1 ≤ q.2.branches.length ∧ q.2.active < q.2.branches.length

/-- Well-formedness of the allocation model: every message object reachable
from the state was allocated below the allocation counter. -/
def RefBound (st : ChatState) : Prop :=
  (∀ m ∈ st.messages, m.ref < st.nextRef) ∧
  ∀ q ∈ st.branchState, ∀ b ∈ q.2.branches, ∀ m ∈ b.tail, m.ref < st.nextRef

instance (st : ChatState) : Decidable (BranchInv st) := by
  unfold BranchInv; infer_instance

instance (st : ChatState) : Decidable (RefBound st) := by
  unfold RefBound; infer_instance

/-- A JavaScript string, as a list of its characters; the streaming loop in
`App.generateResponse` works with these so that the string primitives it uses
stay executable here. -/
abbrev JsStr : Type := List Char

/-- Build a `JsStr` from a Lean string literal. -/
def js (s : String) : JsStr := s.toList

/-- JavaScript `String.prototype.startsWith`. -/
def jsStartsWith (s pre : JsStr) : Bool :=
  List.isPrefixOf pre s

/-- Whitespace as trimmed by JavaScript `String.prototype.trim` (the
characters that occur in this protocol). -/
def jsIsWhitespace (c : Char) : Bool :=
  c == ' ' || c == '\n' || c == '\r' || c == '\t'

/-- JavaScript `String.prototype.trim`. -/
def jsTrim (s : JsStr) : JsStr :=
  ((List.dropWhile jsIsWhitespace s).reverse.dropWhile jsIsWhitespace).reverse

/-- JavaScript `String.prototype.slice(n)` on a string, as used on stream
lines (`line.slice(7)`, `line.slice(6)`). -/
def jsSlice (s : JsStr) (n : Nat) : JsStr :=
  List.drop n s

/-- A JavaScript value as it matters to the streaming delta handling: a
string, or anything else retaining only its truthiness. -/
inductive JsVal
  | str (s : String)
  | other (b : Bool)
deriving DecidableEq

/-- JavaScript truthiness of a present value (the empty string is falsy). -/
def JsVal.isTruthy : JsVal → Bool
  | .str s => !(s == "")
  | .other b => b

/-- JavaScript `a || b` where `a` is a possibly absent object field
(an absent field is `undefined`, which is falsy). -/
def jsOr (a : Option JsVal) (b : JsVal) : JsVal :=
  match a with
  | some v => if v.isTruthy then v else b
  | none => b

/-- The `delta` object of a parsed stream record: at most one answer-text
field and the three reasoning-channel aliases. -/
structure Delta where
  content : Option JsVal
  reasoning : Option JsVal
  reasoning_content : Option JsVal
  thinking : Option JsVal
deriving DecidableEq

/-- One element of the `choices` array of a parsed stream record. -/
structure ChoiceItem where
  delta : Option Delta
deriving DecidableEq

/-- A parsed stream record payload (`JSON.parse` result), with the fields the
controller reads. -/
structure StreamData where
  error : Option JsVal
  choices : List ChoiceItem
deriving DecidableEq

/-- The per-session accumulation state of the streaming loop in
`App.generateResponse`: the current SSE event name, the two accumulation
buffers, the error flag, and whether the loop has returned early. -/
structure GenState where
  currentEvent : JsStr
  accContent : String
  accThoughts : String
  hadError : Bool
  stopped : Bool
deriving DecidableEq

/-- The accumulation state at stream open. -/
def initGenState : GenState :=
  { currentEvent := [], accContent := "", accThoughts := "", hadError := false, stopped := false }

/-- Embedding of the per-line body of the streaming loop in
`App.generateResponse` (app.js).  `parse` stands for `JSON.parse`
restricted to the fields the controller reads; `none` is a parse failure
(the `catch` that skips invalid JSON). -/
def processLine (parse : JsStr → Option StreamData) (st : GenState) (line : JsStr) : GenState :=
  if st.stopped then st
  else if jsStartsWith line (js "event: ") then
    { st with currentEvent := jsTrim (jsSlice line 7) }
  else if line = ([] : JsStr) then { st with currentEvent := [] }
  else if !jsStartsWith line (js "data: ") then st
  else
    let payload := jsTrim (jsSlice line 6)
    if payload = js "[DONE]" then st
    else
      match parse payload with
      | none => st
      | some data =>
          if st.currentEvent = js "error"
              || (match data.error with | some v => v.isTruthy | none => false) then
            { st with hadError := true, stopped := true }
          else
            match data.choices with
            | [] => st
            | c :: _ =>
                let delta := c.delta.getD ⟨none, none, none, none⟩
                let text := match delta.content with
                  | some (.str s) => s
                  | _ => ""
                let st1 := if text ≠ "" then { st with accContent := st.accContent ++ text } else st
                let rsn := jsOr delta.reasoning
                  (jsOr delta.reasoning_content (jsOr delta.thinking (.str "")))
                match rsn with
                | .str s => if s ≠ "" then { st1 with accThoughts := st1.accThoughts ++ s } else st1
                | .other _ => st1

/-- Process the complete lines of the response stream in order. -/
def processLines (parse : JsStr → Option StreamData) (st : GenState) (lines : List JsStr) :
    GenState :=
  lines.foldl (processLine parse) st

/-- How the in-flight request terminates after the delivered lines: a clean
stream end, a user-triggered abort (`AbortController.abort`, surfacing as an
`AbortError`), or a transport failure (any other exception). -/
inductive StreamEnd
  | clean
  | aborted
  | transportError
deriving DecidableEq

/-- A conversation message as the generation controller sees it. -/
structure SMessage where
  id : String
  role : String
  content : String
  thoughts : String
deriving DecidableEq

/-- The outcome of one `App.generateResponse` run: the final local message
list, the session buffers, the error flag, and whether the exit path
re-fetched the conversation from the server (`resynced`, true whenever the
`GET /api/chats/{id}` re-fetch was performed, even if it failed). -/
structure GenResult where
  messages : List SMessage
  accContent : String
  accThoughts : String
  hadError : Bool
  resynced : Bool
deriving DecidableEq

/-- Embedding of `App.generateResponse` (app.js) for one session on a chat
whose id does not change underneath it: append the placeholder model message,
process the delivered stream lines, then run the `finally` reconciliation.
`serverMsgs` is the message list the `GET` re-fetch would return (`none`
when that request fails, which the code ignores). -/
def generateResponse (parse : JsStr → Option StreamData) (msgs0 : List SMessage)
    (msgId : String) (lines : List JsStr) (ending : StreamEnd)
    (serverMsgs : Option (List SMessage)) : GenResult :=
  let withPh := msgs0 ++ [⟨msgId, "model", "", ""⟩]
  let st := processLines parse initGenState lines
  let hadError := st.hadError || (!st.stopped && ending == StreamEnd.transportError)
  if hadError then
    { messages := withPh.filter (fun m => !(m.id == msgId)),
      accContent := st.accContent, accThoughts := st.accThoughts,
      hadError := true, resynced := false }
  else
    { messages := serverMsgs.getD withPh,
      accContent := st.accContent, accThoughts := st.accThoughts,
      hadError := false, resynced := true }

/-- One queued (not yet rendered) streaming UI update. -/
structure PendingUpdate where
  msgId : String
  content : String
  thoughts : String
deriving DecidableEq

/-- The render-throttle state of chat.js: the pending update
(`Chat._pendingStream`), whether the 80ms timer is armed
(`Chat._streamRenderTimer`), and the log of updates actually rendered, in
order. -/
structure ThrottleState where
  pending : Option PendingUpdate
  timerActive : Bool
  renderLog : List PendingUpdate
deriving DecidableEq

/-- The throttle state when a session starts. -/
def initThrottle : ThrottleState :=
  { pending := none, timerActive := false, renderLog := [] }

/-- Embedding of `Chat._flushStreamRender` (chat.js): render the pending
update, if any. -/
def flushStreamRender (ts : ThrottleState) : ThrottleState :=
  match ts.pending with
  | none => ts
  | some u => { ts with pending := none, renderLog := ts.renderLog ++ [u] }

/-- Embedding of `Chat.updateStreamingContent` (chat.js): queue the update;
if no timer is armed, flush immediately and arm the timer. -/
def updateStreamingContent (u : PendingUpdate) (ts : ThrottleState) : ThrottleState :=
  let ts1 := { ts with pending := some u }
  if ts1.timerActive then ts1
  else { flushStreamRender ts1 with timerActive := true }

/-- The throttle timer firing: the timer handle is cleared, then the pending
update is flushed. -/
def streamTimerFire (ts : ThrottleState) : ThrottleState :=
  flushStreamRender { ts with timerActive := false }

/-- Embedding of `Chat.finalizeStreaming` (chat.js): clear the pending update
and cancel the timer.  Nothing is rendered here. -/
def finalizeStreaming (ts : ThrottleState) : ThrottleState :=
  { ts with pending := none, timerActive := false }

/-- A file as the media fitter sees it: name, byte size, and an opaque stand-in
for the byte content. -/
structure ImgFile where
  name : String
  size : Nat
  content : Nat
deriving DecidableEq

/-- The external world of the media fitter: whether the source file decodes
(`Chat._loadImageElement` resolving), and the size and content of the JPEG
the canvas produces at a given scale and quality
(`Chat._renderJpegFromImage`, always re-encoding from the original image). -/
structure FitEnv where
  decodes : Bool
  encodeSize : ℚ → ℚ → Nat
  encodeContent : ℚ → ℚ → Nat

/-- JavaScript `String.prototype.lastIndexOf` for the dot character. -/
def jsLastIndexOfDot (s : String) : Int :=
  match s.toList.reverse.findIdx? (fun c => c == '.') with
  | none => -1
  | some j => (s.length : Int) - 1 - j

/-- Embedding of `Chat._jpegName` (chat.js). -/
def jpegName (originalName : String) : String :=
  if originalName == "" then "image.jpg"
  else
    let idx := jsLastIndexOfDot originalName
    if idx ≤ 0 then originalName ++ ".jpg"
    else (originalName.take idx.toNat) ++ ".jpg"

/-- Embedding of `Chat._renderJpegFromImage` (chat.js): the JPEG file the
canvas encodes at the given scale and quality. -/
def renderJpegFromImage (env : FitEnv) (originalName : String) (scale quality : ℚ) : ImgFile :=
  { name := jpegName originalName,
    size := env.encodeSize scale quality,
    content := env.encodeContent scale quality }

/-- Embedding of `Chat._convertImageToJpeg` (chat.js): decode the original,
then re-encode at full resolution and quality 0.9; `none` when decoding
fails (the rejected promise). -/
def convertImageToJpeg (env : FitEnv) (f : ImgFile) : Option ImgFile :=
  if env.decodes then some (renderJpegFromImage env f.name 1 (9/10)) else none

/-- The inner bisection of `Chat._findLargestJpegUnderLimit` (chat.js): a
fixed number of iterations of binary search on the scale factor, keeping the
last candidate that fit. -/
def searchScale (env : FitEnv) (name : String) (q : ℚ) (maxBytes : Nat) :
    Nat → ℚ → ℚ → Option ImgFile → Option ImgFile
  | 0, _, _, best => best
  | n + 1, low, high, best =>
      let mid := (low + high) / 2
      let candidate := renderJpegFromImage env name mid q
      if candidate.size ≤ maxBytes then searchScale env name q maxBytes n mid high (some candidate)
      else searchScale env name q maxBytes n low mid best

/-- The running-best update of `Chat._findLargestJpegUnderLimit`: keep the
per-quality best when it is strictly larger than the best so far. -/
def betterOverall (best bestOverall : Option ImgFile) : Option ImgFile :=
  match best, bestOverall with
  | some b, none => some b
  | some b, some o => if o.size < b.size then some b else some o
  | none, o => o

/-- The outer quality loop of `Chat._findLargestJpegUnderLimit`: for each
quality, bisect the scale over 8 iterations in [0.1, 1], keep the overall
best, and stop early once the best reaches 94% of the budget. -/
def qualityLoop (env : FitEnv) (name : String) (maxBytes : Nat) :
    List ℚ → Option ImgFile → Option ImgFile
  | [], bestOverall => bestOverall
  | q :: qs, bestOverall =>
      let best := searchScale env name q maxBytes 8 (1/10) 1 none
      let bo := betterOverall best bestOverall
      if (match bo with
          | some c => decide ((maxBytes : ℚ) * (94/100) ≤ (c.size : ℚ))
          | none => false) then bo
      else qualityLoop env name maxBytes qs bo

/-- Embedding of `Chat._findLargestJpegUnderLimit` (chat.js): decode the
original, then run the two-parameter search over qualities 0.9, 0.86, 0.82;
`none` when decoding fails or no candidate fits. -/
def findLargestJpegUnderLimit (env : FitEnv) (f : ImgFile) (maxBytes : Nat) : Option ImgFile :=
  if env.decodes then qualityLoop env f.name maxBytes [9/10, 86/100, 82/100] none
  else none

/-- A user choice in one `Chat._showImagePrepModal` dialog.  The `secondary`
button (Keep Original) is only rendered when `allowKeepOriginal` holds, so
that choice can only occur then. -/
inductive PrepChoice
  | primary
  | secondary
  | tertiary
  | cancel
deriving DecidableEq

/-- Embedding of `Chat._prepareImageForUpload` (chat.js): the media-fit entry
point.  `maxBytes = none` is an absent budget; `c1` and `c2` are the user's
choices in the first and second dialog; the result is the file to upload, or
`none` for the "cannot fit"/skip outcome. -/
def prepareImageForUpload (env : FitEnv) (f : ImgFile) (maxBytes : Option Nat)
    (allowKeepOriginal : Bool) (c1 c2 : PrepChoice) : Option ImgFile :=
  match maxBytes with
  | none => some f
  | some m =>
      if m == 0 then some f
      else if f.size ≤ m then some f
      else if c1 == PrepChoice.tertiary || c1 == PrepChoice.cancel then none
      else if c1 == PrepChoice.secondary then some f
      else
        match convertImageToJpeg env f with
        | none => none
        | some jpeg =>
            if jpeg.size ≤ m then some jpeg
            else if !(c2 == PrepChoice.primary) then none
            else findLargestJpegUnderLimit env f m

/-- Concatenation of a list of text fragments, in order. -/
def concatTexts : List String → String
  | [] => ""
  | s :: rest => s ++ concatTexts rest

/-- A concrete stand-in for `JSON.parse` on this protocol: two well-formed
record payloads carrying the answer fragments of spec Scenario C, everything
else malformed. -/
def demoParse (p : JsStr) : Option StreamData :=
  if p = js "rec Hel" then some ⟨none, [⟨some ⟨some (JsVal.str "Hel"), none, none, none⟩⟩]⟩
  else if p = js "rec lo" then some ⟨none, [⟨some ⟨some (JsVal.str "lo"), none, none, none⟩⟩]⟩
  else none

/-- A conversation with a three-message user run followed by a model turn
(spec property P3). -/
def demoRunMsgs : List Message :=
  [⟨0, "u1", "user", "a", ""⟩, ⟨1, "u2", "user", "b", ""⟩,
   ⟨2, "u3", "user", "c", ""⟩, ⟨3, "m1", "model", "d", ""⟩]

/-- A chat whose first message is a model message. -/
def demoFirstModelSt : ChatState :=
  { messages := [⟨0, "m0", "model", "x", ""⟩], branchState := [],
    isGenerating := false, nextRef := 1 }

/-- A two-branch branch point anchored at `u1`. -/
def demoPoint : BranchPoint :=
  { active := 0,
    branches := [⟨10, [⟨2, "m1", "model", "alpha", ""⟩]⟩,
                 ⟨11, [⟨3, "m1b", "model", "beta", ""⟩]⟩] }

/-- A chat state carrying `demoPoint`, with the first branch live. -/
def demoSt : ChatState :=
  { messages := [⟨0, "u1", "user", "q", ""⟩, ⟨2, "m1", "model", "alpha", ""⟩],
    branchState := [("u1", demoPoint)], isGenerating := false, nextRef := 20 }

/-- A chat state whose only branch point has a single branch. -/
def demoSingleSt : ChatState :=
  { messages := [⟨0, "u1", "user", "q", ""⟩, ⟨2, "m1", "model", "alpha", ""⟩],
    branchState := [("u1", ⟨0, [⟨10, [⟨2, "m1", "model", "alpha", ""⟩]⟩]⟩)],
    isGenerating := false, nextRef := 20 }

/-- A sample sequence of branch operations. -/
def demoOps : List BranchOp :=
  [BranchOp.branchRerun "m1", BranchOp.shift "u1" 1,
   BranchOp.deleteActive "u1", BranchOp.rerun "m1", BranchOp.shift "u1" (-1)]

/-- The conversation a cancelled generation session starts from. -/
def demoSMsgs : List SMessage := [⟨"u1", "user", "q", ""⟩]

/-- A generation run over the two valid Scenario C records that the user
cancels at that point, with the exit-path re-fetch failing. -/
def demoCancelRun : GenResult :=
  generateResponse demoParse demoSMsgs "ph"
    [js "data: rec Hel", js "data: rec lo"] StreamEnd.aborted none

/-- Two consecutive streaming UI updates. -/
def demoPend1 : PendingUpdate := ⟨"ph", "a", ""⟩

/-- The second streaming UI update, arriving while the throttle timer is armed. -/
def demoPend2 : PendingUpdate := ⟨"ph", "ab", ""⟩

/-- A media-fit environment where every re-encode produces 7 bytes. -/
def demoEnv : FitEnv := ⟨true, fun _ _ => 7, fun _ _ => 0⟩

/-- A media-fit environment whose source file cannot be decoded. -/
def demoEnvNoDecode : FitEnv := ⟨false, fun _ _ => 7, fun _ _ => 0⟩

/-- A 10-byte image file. -/
def demoBig : ImgFile := ⟨"p.png", 10, 1⟩

/-! Helper lemmas about the embedded primitives. -/

theorem cloneMessages_fst_data (l : List Message) (n : Nat) :
    ((cloneMessages l n).1).map Message.data = l.map Message.data := by
  induction l generalizing n with
  | nil => rfl
  | cons m rest ih => simp [cloneMessages, Message.data, ih]

theorem cloneMessages_ref_ge (l : List Message) (n : Nat) :
    ∀ m ∈ (cloneMessages l n).1, n ≤ m.ref := by
  induction l generalizing n with
  | nil => simp [cloneMessages]
  | cons a rest ih =>
      intro m hm
      simp only [cloneMessages, List.mem_cons] at hm
      rcases hm with h | h
      · subst h; exact Nat.le_refl n
      · exact Nat.le_of_succ_le (ih (n + 1) m h)

theorem jsFindIndex_spec {α : Type} [Inhabited α] (p : α → Bool) (l : List α) (i : Nat)
    (h : jsFindIndex p l = Int.ofNat i) :
    i < l.length ∧ p (l.getD i default) = true := by
  induction l generalizing i with
  | nil => simp [jsFindIndex] at h
  | cons a rest ih =>
      rw [Int.ofNat_eq_natCast] at h
      by_cases hpa : p a
      · have h0 : (0 : Int) = (i : Int) := by simpa [jsFindIndex, hpa] using h
        have : i = 0 := by omega
        subst this
        exact ⟨Nat.succ_pos _, by simpa [List.getD] using hpa⟩
      · have h1 : (if jsFindIndex p rest < 0 then (-1 : Int) else jsFindIndex p rest + 1)
            = (i : Int) := by simpa [jsFindIndex, hpa] using h
        by_cases hneg : jsFindIndex p rest < 0
        · rw [if_pos hneg] at h1; omega
        · rw [if_neg hneg] at h1
          push_neg at hneg
          obtain ⟨j, hj⟩ : ∃ j : Nat, jsFindIndex p rest = Int.ofNat j := by
            refine ⟨(jsFindIndex p rest).toNat, ?_⟩
            rw [Int.ofNat_eq_natCast]
            exact (Int.toNat_of_nonneg hneg).symm
          have hj2 : jsFindIndex p rest = (j : Int) := by
            rw [hj, Int.ofNat_eq_natCast]
          rw [hj2] at h1
          have hji : j + 1 = i := by omega
          obtain ⟨hlt, hget⟩ := ih j hj
          subst hji
          exact ⟨by simpa using Nat.succ_lt_succ hlt, by simpa [List.getD] using hget⟩

theorem jsFindIndex_head {α : Type} (p : α → Bool) (a : α) (l : List α) (h : p a = true) :
    jsFindIndex p (a :: l) = 0 := by
  simp [jsFindIndex, h]

theorem getD_drop {α : Type} [Inhabited α] (l : List α) (n k : Nat) :
    (l.drop n).getD k default = l.getD (n + k) default := by
  induction l generalizing n with
  | nil => simp
  | cons a rest ih =>
      cases n with
      | zero => simp
      | succ n => simpa [Nat.succ_add] using ih n

theorem takeWhile_length_le {α : Type} (p : α → Bool) (l : List α) :
    (l.takeWhile p).length ≤ l.length := by
  induction l with
  | nil => simp
  | cons a rest ih =>
      by_cases h : p a
      · simpa [List.takeWhile, h] using Nat.succ_le_succ ih
      · simp [List.takeWhile, h]

theorem takeWhile_pred_of_lt {α : Type} [Inhabited α] (p : α → Bool) (l : List α) (k : Nat)
    (hk : k < (l.takeWhile p).length) : p (l.getD k default) = true := by
  induction l generalizing k with
  | nil => simp at hk
  | cons a rest ih =>
      by_cases h : p a
      · cases k with
        | zero => simpa using h
        | succ k =>
            simp only [List.takeWhile, h, List.length_cons] at hk
            exact ih k (Nat.lt_of_succ_lt_succ hk)
      · simp [List.takeWhile, h] at hk

theorem takeWhile_stop {α : Type} [Inhabited α] (p : α → Bool) (l : List α)
    (h : (l.takeWhile p).length < l.length) :
    p (l.getD (l.takeWhile p).length default) = false := by
  induction l with
  | nil => simp at h
  | cons a rest ih =>
      by_cases hpa : p a
      · simp only [List.takeWhile, hpa, List.length_cons] at h ⊢
        exact ih (Nat.lt_of_succ_lt_succ h)
      · simpa [List.takeWhile, hpa] using hpa

theorem setBranchPoint_messages (a : String) (bp : BranchPoint) (st : ChatState) :
    (setBranchPoint a bp st).messages = st.messages := rfl

theorem ensureBranchPoint_messages (a : String) (st : ChatState) :
    (ensureBranchPoint a st).2.messages = st.messages := by
  unfold ensureBranchPoint
  cases h : getBranchPoint a st <;> simp

/-- Claim C7: the rerun/branch anchor for a model message is the immediately
preceding message; for a user message it is the last message of the maximal
contiguous run of user messages starting there.  `i` is the index of the
message the action is invoked on. -/
theorem c7_anchor_resolution (msgId : String) (messages : List Message) (i : Nat)
    (hfind : jsFindIndex (fun m => m.id == msgId) messages = Int.ofNat i) :
    ((messages.getD i default).role = "model" →
      resolveRerunAnchorIndex msgId messages = (i : Int) - 1) ∧
    ((messages.getD i default).role = "user" →
      ∃ e : Nat, resolveRerunAnchorIndex msgId messages = Int.ofNat e ∧
        i ≤ e ∧ e < messages.length ∧
        (∀ k : Nat, i < k → k ≤ e → (messages.getD k default).role = "user") ∧
        (e + 1 < messages.length → ¬((messages.getD (e + 1) default).role = "user"))) := by
  have hlen := (jsFindIndex_spec _ _ _ hfind).1
  rw [Int.ofNat_eq_natCast] at hfind
  have hneg : ¬(jsFindIndex (fun m => m.id == msgId) messages < 0) := by
    rw [hfind]; omega
  constructor
  · intro hrole
    have hbeq : (((messages.getD i default).role == "model")
        || ((messages.getD i default).role == "assistant")) = true := by
      rw [hrole]; decide
    unfold resolveRerunAnchorIndex
    rw [if_neg hneg, hfind]
    simp only [Int.toNat_natCast]
    rw [if_pos hbeq]
  · intro hrole
    have hcond : (((messages.getD i default).role == "model")
        || ((messages.getD i default).role == "assistant")) = false := by
      rw [hrole]; decide
    refine ⟨userRunEnd messages i, ?_, ?_, ?_, ?_, ?_⟩
    · unfold resolveRerunAnchorIndex
      rw [if_neg hneg, hfind]
      simp only [Int.toNat_natCast]
      rw [if_neg (by simp only [hcond]; exact Bool.false_ne_true)]
      rw [Int.ofNat_eq_natCast]
    · exact Nat.le_add_right _ _
    · unfold userRunEnd
      have h1 := takeWhile_length_le (fun m => m.role == "user") (messages.drop (i + 1))
      rw [List.length_drop] at h1
      omega
    · intro k hik hke
      unfold userRunEnd at hke
      have hj : k - (i + 1) <
          ((messages.drop (i + 1)).takeWhile (fun m => m.role == "user")).length := by omega
      have := takeWhile_pred_of_lt (fun m => m.role == "user") (messages.drop (i + 1))
        (k - (i + 1)) hj
      rw [getD_drop] at this
      have hk2 : i + 1 + (k - (i + 1)) = k := by omega
      rw [hk2] at this
      simpa using this
    · intro hlt
      unfold userRunEnd at hlt ⊢
      have hj : ((messages.drop (i + 1)).takeWhile (fun m => m.role == "user")).length <
          (messages.drop (i + 1)).length := by
        rw [List.length_drop]; omega
      have hstop : ((messages.getD
          (i + 1 + ((messages.drop (i + 1)).takeWhile (fun m => m.role == "user")).length)
          default).role == "user") = false := by
        have h0 := takeWhile_stop (fun m => m.role == "user") (messages.drop (i + 1)) hj
        rw [getD_drop] at h0
        exact h0
      intro hcontra
      rw [show i + 1 + ((messages.drop (i + 1)).takeWhile (fun m => m.role == "user")).length
          = i + ((messages.drop (i + 1)).takeWhile (fun m => m.role == "user")).length + 1
          by omega] at hstop
      rw [hcontra] at hstop
      simp at hstop

/-- Witness for C7 on spec property P3: in a three-user-message run followed by
a model message, rerunning from the second user message anchors at the third
user message (index 2). -/
theorem c7_anchor_resolution_witness :
    resolveRerunAnchorIndex "u2" demoRunMsgs = Int.ofNat 2 ∧
    ∃ e : Nat, resolveRerunAnchorIndex "u2" demoRunMsgs = Int.ofNat e ∧
      1 ≤ e ∧ e < demoRunMsgs.length ∧
      (∀ k : Nat, 1 < k → k ≤ e → (demoRunMsgs.getD k default).role = "user") ∧
      (e + 1 < demoRunMsgs.length → ¬((demoRunMsgs.getD (e + 1) default).role = "user")) :=
  ⟨by decide, (c7_anchor_resolution "u2" demoRunMsgs 1 (by decide)).2 (by decide)⟩

/-- Claim C10: when the first message of the conversation is a model message,
rerun and branch+rerun on it resolve the anchor to -1 and are complete
no-ops: the state is unchanged (no truncation, no branch point) and no side
effects — in particular no generation — are produced. -/
theorem c10_first_model_noop (st : ChatState) (m : Message) (rest : List Message)
    (hmsgs : st.messages = m :: rest) (hrole : m.role = "model") :
    resolveRerunAnchorIndex m.id st.messages = -1 ∧
    rerunFrom m.id st = (st, []) ∧
    branchRerunFrom m.id st = (st, []) := by
  have hfind : jsFindIndex (fun x => x.id == m.id) st.messages = 0 := by
    rw [hmsgs]
    exact jsFindIndex_head _ _ _ (by simp)
  have hres : resolveRerunAnchorIndex m.id st.messages = -1 := by
    unfold resolveRerunAnchorIndex
    rw [hfind]
    have : ((0 : Int) < 0) = False := by simp
    rw [if_neg (by simp)]
    have hget : st.messages.getD (0 : Int).toNat default = m := by
      rw [hmsgs]; rfl
    rw [hget]
    simp [hrole]
  refine ⟨hres, ?_, ?_⟩
  · unfold rerunFrom
    cases hg : st.isGenerating with
    | true => simp
    | false =>
        simp only [Bool.false_eq_true, if_false]
        rw [hres]
        simp
  · unfold branchRerunFrom
    cases hg : st.isGenerating with
    | true => simp
    | false =>
        simp only [Bool.false_eq_true, if_false]
        rw [hres]
        simp

/-- Witness for C10: a concrete one-message conversation whose only message is
a model message. -/
theorem c10_first_model_noop_witness :
    resolveRerunAnchorIndex "m0" demoFirstModelSt.messages = -1 ∧
    rerunFrom "m0" demoFirstModelSt = (demoFirstModelSt, []) ∧
    branchRerunFrom "m0" demoFirstModelSt = (demoFirstModelSt, []) :=
  c10_first_model_noop demoFirstModelSt ⟨0, "m0", "model", "x", ""⟩ [] rfl rfl

/-- Claim C9: a rerun or branch+rerun on a resolvable anchor first truncates
the live sequence to end at the anchor (inclusive), and its side effects, in
execution order, are the completed save of exactly that truncated sequence,
the re-render, and only then the generation request — so the request is never
issued while any message beyond the anchor is still live or unpersisted. -/
theorem c9_truncate_before_generate (st : ChatState) (msgId : String) (k : Nat)
    (hg : st.isGenerating = false)
    (hk : resolveRerunAnchorIndex msgId st.messages = Int.ofNat k) :
    ((rerunFrom msgId st).1.messages = st.messages.take (k + 1) ∧
      (rerunFrom msgId st).2 =
        [Event.save (st.messages.take (k + 1)), Event.render, Event.generate]) ∧
    ((branchRerunFrom msgId st).1.messages = st.messages.take (k + 1) ∧
      (branchRerunFrom msgId st).2 =
        [Event.save (st.messages.take (k + 1)), Event.render, Event.generate]) := by
  rw [Int.ofNat_eq_natCast] at hk
  have hneg : ¬(resolveRerunAnchorIndex msgId st.messages < 0) := by rw [hk]; omega
  have h1 : ∀ a : String, (ensureBranchPoint a st).2.messages = st.messages :=
    fun a => ensureBranchPoint_messages a st
  constructor
  · unfold rerunFrom
    rw [hg]
    simp only [Bool.false_eq_true, if_false, hk]
    rw [if_neg (by omega)]
    simp only [setBranchPoint_messages, Int.toNat_natCast, h1]
    exact ⟨trivial, trivial⟩
  · unfold branchRerunFrom
    rw [hg]
    simp only [Bool.false_eq_true, if_false, hk]
    rw [if_neg (by omega)]
    simp only [setBranchPoint_messages, Int.toNat_natCast, h1]
    exact ⟨trivial, trivial⟩

/-- Witness for C9: rerunning from the model message of the two-message demo
chat anchors at index 0 and saves the one-message truncation before
generating. -/
theorem c9_truncate_before_generate_witness :
    ((rerunFrom "m1" demoSt).1.messages = demoSt.messages.take 1 ∧
      (rerunFrom "m1" demoSt).2 =
        [Event.save (demoSt.messages.take 1), Event.render, Event.generate]) ∧
    ((branchRerunFrom "m1" demoSt).1.messages = demoSt.messages.take 1 ∧
      (branchRerunFrom "m1" demoSt).2 =
        [Event.save (demoSt.messages.take 1), Event.render, Event.generate]) :=
  c9_truncate_before_generate demoSt "m1" 0 rfl (by decide)

theorem getBranchPoint_mem (a : String) (st : ChatState) (bp : BranchPoint)
    (h : getBranchPoint a st = some bp) : ∃ q ∈ st.branchState, q.2 = bp := by
  unfold getBranchPoint at h
  cases hf : st.branchState.find? (fun q => q.1 == a) with
  | none => rw [hf] at h; simp at h
  | some q =>
      rw [hf] at h
      have h2 : some q.2 = some bp := h
      exact ⟨q, List.mem_of_find?_eq_some hf, by injection h2⟩

theorem branchInv_of_branchState_eq (st st2 : ChatState) (h : BranchInv st)
    (he : st2.branchState = st.branchState) : BranchInv st2 := by
  intro q hq
  rw [he] at hq
  exact h q hq

theorem branchInv_setBranchPoint (a : String) (bp : BranchPoint) (st : ChatState)
    (h : BranchInv st) (h1 : 1 ≤ bp.branches.length) (h2 : bp.active < bp.branches.length) :
    BranchInv (setBranchPoint a bp st) := by
  intro q hq
  simp only [setBranchPoint, List.mem_map] at hq
  obtain ⟨q0, hq0, rfl⟩ := hq
  by_cases hkey : (q0.1 == a) = true
  · simp only [hkey, if_true]
    exact ⟨h1, h2⟩
  · simp only [hkey, if_false]
    exact h q0 hq0

theorem branchInv_ensure (a : String) (st : ChatState) (h : BranchInv st) :
    BranchInv (ensureBranchPoint a st).2 ∧
    1 ≤ (ensureBranchPoint a st).1.branches.length ∧
    (ensureBranchPoint a st).1.active < (ensureBranchPoint a st).1.branches.length := by
  unfold ensureBranchPoint
  cases hbp : getBranchPoint a st with
  | none =>
      refine ⟨?_, by simp, by simp⟩
      intro q hq
      simp only [List.mem_append, List.mem_singleton] at hq
      rcases hq with hq | hq
      · exact h q hq
      · subst hq; exact ⟨by simp, by simp⟩
  | some bp =>
      refine ⟨h, ?_, ?_⟩ <;>
      · obtain ⟨q, hq, hq2⟩ := getBranchPoint_mem a st bp hbp
        have := h q hq
        rw [hq2] at this
        simp only
        omega

theorem branchInv_rerunFrom (m : String) (st : ChatState) (h : BranchInv st) :
    BranchInv (rerunFrom m st).1 := by
  unfold rerunFrom
  cases hg : st.isGenerating with
  | true => simpa using h
  | false =>
      simp only [Bool.false_eq_true, if_false]
      by_cases hlt : resolveRerunAnchorIndex m st.messages < 0
      · rw [if_pos hlt]; exact h
      · rw [if_neg hlt]
        simp only
        obtain ⟨hinv1, hb1, hb2⟩ := branchInv_ensure
          ((st.messages.getD (resolveRerunAnchorIndex m st.messages).toNat default).id) st h
        apply branchInv_setBranchPoint
        · exact branchInv_of_branchState_eq _ _ hinv1 rfl
        · simpa using hb1
        · simpa using hb2

theorem branchInv_branchRerunFrom (m : String) (st : ChatState) (h : BranchInv st) :
    BranchInv (branchRerunFrom m st).1 := by
  unfold branchRerunFrom
  cases hg : st.isGenerating with
  | true => simpa using h
  | false =>
      simp only [Bool.false_eq_true, if_false]
      by_cases hlt : resolveRerunAnchorIndex m st.messages < 0
      · rw [if_pos hlt]; exact h
      · rw [if_neg hlt]
        simp only
        obtain ⟨hinv1, hb1, hb2⟩ := branchInv_ensure
          ((st.messages.getD (resolveRerunAnchorIndex m st.messages).toNat default).id) st h
        refine branchInv_of_branchState_eq _ _ ?_ rfl
        refine branchInv_setBranchPoint
          ((st.messages.getD (resolveRerunAnchorIndex m st.messages).toNat default).id)
          { (ensureBranchPoint ((st.messages.getD
                (resolveRerunAnchorIndex m st.messages).toNat default).id) st).1 with
            branches := (ensureBranchPoint ((st.messages.getD
                (resolveRerunAnchorIndex m st.messages).toNat default).id) st).1.branches ++
              [{ bid := (ensureBranchPoint ((st.messages.getD
                    (resolveRerunAnchorIndex m st.messages).toNat default).id) st).2.nextRef,
                 tail := ([] : List Message) }],
            active := (ensureBranchPoint ((st.messages.getD
                (resolveRerunAnchorIndex m st.messages).toNat default).id) st).1.branches.length }
          _ (branchInv_of_branchState_eq _
            (ensureBranchPoint ((st.messages.getD
              (resolveRerunAnchorIndex m st.messages).toNat default).id) st).2 hinv1 rfl)
          (by simp) (by simp)

theorem branchInv_shiftBranch (a : String) (d : Int) (st : ChatState) (h : BranchInv st) :
    BranchInv (shiftBranch a d st) := by
  unfold shiftBranch
  cases hg : st.isGenerating with
  | true => simpa using h
  | false =>
      simp only [Bool.false_eq_true, if_false]
      cases hbp : getBranchPoint a st with
      | none => exact h
      | some point =>
          simp only
          by_cases hrange : ((point.active : Int) + d < 0
              || (point.branches.length : Int) ≤ (point.active : Int) + d) = true
          · rw [if_pos hrange]; exact h
          · rw [if_neg hrange]
            simp only [Bool.or_eq_true, decide_eq_true_eq, not_or] at hrange
            have hnn : (0 : Int) ≤ (point.active : Int) + d := by omega
            have hlt : ((point.active : Int) + d).toNat < point.branches.length := by omega
            have hset := branchInv_setBranchPoint a { point with active :=
              ((point.active : Int) + d).toNat } st h (by
                obtain ⟨q, hq, hq2⟩ := getBranchPoint_mem a st point hbp
                have := h q hq
                rw [hq2] at this
                simpa using this.1) (by simpa using hlt)
            by_cases hfi : jsFindIndex (fun m => m.id == a)
                (setBranchPoint a { point with active :=
                  ((point.active : Int) + d).toNat } st).messages < 0
            · rw [if_pos hfi]; exact hset
            · rw [if_neg hfi]
              exact branchInv_of_branchState_eq _ _ hset rfl

theorem branchInv_deleteActiveBranch (a : String) (st : ChatState) (h : BranchInv st) :
    BranchInv (deleteActiveBranch a st) := by
  unfold deleteActiveBranch
  cases hbp : getBranchPoint a st with
  | none => exact h
  | some point =>
      simp only
      by_cases hone : point.branches.length ≤ 1
      · rw [if_pos hone]; exact h
      · rw [if_neg hone]
        push_neg at hone
        have hmem : point.active < point.branches.length := by
          obtain ⟨q, hq, hq2⟩ := getBranchPoint_mem a st point hbp
          have := h q hq
          rw [hq2] at this
          exact this.2
        have hlen : (point.branches.eraseIdx point.active).length
            = point.branches.length - 1 := by
          rw [List.length_eraseIdx]
          simp [hmem]
        have hset := branchInv_setBranchPoint a
          ⟨point.active - 1, point.branches.eraseIdx point.active⟩ st h
          (by simp only [hlen]; omega) (by simp only [hlen]; omega)
        by_cases hfi : jsFindIndex (fun m => m.id == a)
            (setBranchPoint a ⟨point.active - 1, point.branches.eraseIdx point.active⟩
              st).messages < 0
        · rw [if_pos hfi]; exact hset
        · rw [if_neg hfi]
          exact branchInv_of_branchState_eq _ _ hset rfl

theorem branchInv_applyBranchOp (op : BranchOp) (st : ChatState) (h : BranchInv st) :
    BranchInv (applyBranchOp op st) := by
  cases op with
  | rerun m => exact branchInv_rerunFrom m st h
  | branchRerun m => exact branchInv_branchRerunFrom m st h
  | shift a d => exact branchInv_shiftBranch a d st h
  | deleteActive a => exact branchInv_deleteActiveBranch a st h

/-- Claim C2: every sequence of branch operations (branch-point creation and
sibling creation via the rerun entry points, navigation, active-branch
deletion) preserves the branch-point invariant — at least one branch, active
index in range — and deleting the active branch of a single-branch point is
rejected, leaving the state unchanged. -/
theorem c2_branch_invariant (st : ChatState) (hinv : BranchInv st) :
    (∀ ops : List BranchOp, BranchInv (applyBranchOps ops st)) ∧
    (∀ a p, getBranchPoint a st = some p → p.branches.length = 1 →
      applyBranchOp (BranchOp.deleteActive a) st = st) := by
  constructor
  · intro ops
    induction ops generalizing st with
    | nil => exact hinv
    | cons op rest ih =>
        have h1 := branchInv_applyBranchOp op st hinv
        simpa [applyBranchOps] using ih (applyBranchOp op st) h1
  · intro a p hp hone
    show deleteActiveBranch a st = st
    unfold deleteActiveBranch
    rw [hp]
    simp only [hone]
    rfl

/-- Witness for C2: the invariant survives a concrete five-operation sequence
on the demo chat, and deleting the sole branch of the single-branch demo chat
is a no-op. -/
theorem c2_branch_invariant_witness :
    BranchInv (applyBranchOps demoOps demoSt) ∧
    applyBranchOp (BranchOp.deleteActive "u1") demoSingleSt = demoSingleSt :=
  ⟨(c2_branch_invariant demoSt (by decide)).1 demoOps,
   (c2_branch_invariant demoSingleSt (by decide)).2 "u1"
     ⟨0, [⟨10, [⟨2, "m1", "model", "alpha", ""⟩]⟩]⟩ (by decide) (by decide)⟩

theorem shiftBranch_fields (st : ChatState) (a : String) (delta : Int)
    (point : BranchPoint) (i : Nat)
    (hg : st.isGenerating = false)
    (hp : getBranchPoint a st = some point)
    (hlo : 0 ≤ (point.active : Int) + delta)
    (hhi : (point.active : Int) + delta < (point.branches.length : Int))
    (hi : jsFindIndex (fun m => m.id == a) st.messages = (i : Int)) :
    (shiftBranch a delta st).messages = st.messages.take (i + 1) ++
      (cloneMessages
        (point.branches.getD ((point.active : Int) + delta).toNat default).tail
        st.nextRef).1 ∧
    (shiftBranch a delta st).branchState = st.branchState.map
      (fun q => if q.1 == a then
        (q.1, { point with active := ((point.active : Int) + delta).toNat }) else q) := by
  unfold shiftBranch
  rw [hg]
  simp only [Bool.false_eq_true, if_false, hp]
  rw [if_neg (by
    simp only [Bool.or_eq_true, decide_eq_true_eq, not_or]
    exact ⟨by omega, by omega⟩)]
  simp only [setBranchPoint_messages, hi]
  rw [if_neg (by omega)]
  simp only [Int.toNat_natCast]
  exact ⟨rfl, rfl⟩

/-- Claim C3: when `shiftBranch` succeeds (anchor present, no generation in
flight, target index in range), the live suffix after the anchor equals the
newly active branch's stored tail element-for-element, and the suffix is a
deep copy: no message object of the live suffix is any object stored in any
branch tail (refs are disjoint). -/
theorem c3_shift_tail_fidelity (st : ChatState) (a : String) (delta : Int)
    (point : BranchPoint) (i : Nat)
    (hg : st.isGenerating = false)
    (hwf : RefBound st)
    (hp : getBranchPoint a st = some point)
    (hlo : 0 ≤ (point.active : Int) + delta)
    (hhi : (point.active : Int) + delta < (point.branches.length : Int))
    (hi : jsFindIndex (fun m => m.id == a) st.messages = (i : Int)) :
    ((shiftBranch a delta st).messages.drop (i + 1)).map Message.data =
      ((point.branches.getD ((point.active : Int) + delta).toNat default).tail).map
        Message.data ∧
    ∀ m ∈ (shiftBranch a delta st).messages.drop (i + 1),
      ∀ q ∈ (shiftBranch a delta st).branchState, ∀ b ∈ q.2.branches, ∀ mm ∈ b.tail,
        m.ref ≠ mm.ref := by
  obtain ⟨hmsg, hbs⟩ := shiftBranch_fields st a delta point i hg hp hlo hhi hi
  have hlen := (jsFindIndex_spec _ _ _ (by rw [hi, Int.ofNat_eq_natCast])).1
  have htl : (st.messages.take (i + 1)).length = i + 1 := by
    rw [List.length_take]; omega
  have hdrop : (shiftBranch a delta st).messages.drop (i + 1) =
      (cloneMessages
        (point.branches.getD ((point.active : Int) + delta).toNat default).tail
        st.nextRef).1 := by
    have hd := List.drop_left (st.messages.take (i + 1))
      (cloneMessages
        (point.branches.getD ((point.active : Int) + delta).toNat default).tail
        st.nextRef).1
    rw [htl] at hd
    rw [hmsg]
    exact hd
  constructor
  · rw [hdrop, cloneMessages_fst_data]
  · intro m hm q hq b hb mm hmm
    rw [hdrop] at hm
    have hge : st.nextRef ≤ m.ref := cloneMessages_ref_ge _ _ m hm
    have hlt : mm.ref < st.nextRef := by
      rw [hbs] at hq
      simp only [List.mem_map] at hq
      obtain ⟨q0, hq0, hq0eq⟩ := hq
      by_cases hkey : (q0.1 == a) = true
      · rw [if_pos hkey] at hq0eq
        subst hq0eq
        simp only at hb
        obtain ⟨qp, hqp, hqp2⟩ := getBranchPoint_mem a st point hp
        exact hwf.2 qp hqp b (by rw [hqp2]; exact hb) mm hmm
      · rw [if_neg hkey] at hq0eq
        subst hq0eq
        exact hwf.2 q0 hq0 b hb mm hmm
    omega

/-- Witness for C3: navigating the demo chat to its second branch replaces the
suffix with a fresh copy of the stored `beta` tail. -/
theorem c3_shift_tail_fidelity_witness :
    ((shiftBranch "u1" 1 demoSt).messages.drop 1).map Message.data =
      ((demoPoint.branches.getD (((demoPoint.active : Int) + 1).toNat) default).tail).map
        Message.data ∧
    ∀ m ∈ (shiftBranch "u1" 1 demoSt).messages.drop 1,
      ∀ q ∈ (shiftBranch "u1" 1 demoSt).branchState, ∀ b ∈ q.2.branches, ∀ mm ∈ b.tail,
        m.ref ≠ mm.ref :=
  c3_shift_tail_fidelity demoSt "u1" 1 demoPoint 0 rfl (by decide) (by decide)
    (by decide) (by decide) (by decide)

theorem processLine_malformed (parse : JsStr → Option StreamData) (st : GenState) (line : JsStr)
    (h1 : jsStartsWith line (js "event: ") = false)
    (h2 : line ≠ ([] : JsStr))
    (h3 : jsStartsWith line (js "data: ") = true)
    (h4 : jsTrim (jsSlice line 6) ≠ js "[DONE]")
    (h5 : parse (jsTrim (jsSlice line 6)) = none) :
    processLine parse st line = st := by
  by_cases hs : st.stopped = true
  · simp [processLine, hs]
  · simp [processLine, hs, h1, h2, h3, h4, h5]

/-- Claim C8: a malformed (non-parseable) data record anywhere in the stream
leaves the processing state — in particular the accumulated answer and
reasoning buffers — exactly as if the record were absent, and does not abort
the session (the state, including the stopped flag, is unchanged at that
record). -/
theorem c8_malformed_skip (parse : JsStr → Option StreamData) (st : GenState)
    (pre post : List JsStr) (mal : JsStr)
    (h1 : jsStartsWith mal (js "event: ") = false)
    (h2 : mal ≠ ([] : JsStr))
    (h3 : jsStartsWith mal (js "data: ") = true)
    (h4 : jsTrim (jsSlice mal 6) ≠ js "[DONE]")
    (h5 : parse (jsTrim (jsSlice mal 6)) = none) :
    processLines parse st (pre ++ mal :: post) = processLines parse st (pre ++ post) ∧
    processLine parse (processLines parse st pre) mal = processLines parse st pre := by
  have hmal : ∀ s : GenState, processLine parse s mal = s := fun s =>
    processLine_malformed parse s mal h1 h2 h3 h4 h5
  constructor
  · unfold processLines
    rw [List.foldl_append, List.foldl_append, List.foldl_cons, hmal]
  · exact hmal _

/-- Witness for C8: dropping a malformed record between the two valid Scenario
C records does not change the outcome, and the state at the malformed record
is untouched. -/
theorem c8_malformed_skip_witness :
    demoParse (jsTrim (jsSlice (js "data: oops") 6)) = none ∧
    processLines demoParse initGenState
        ([js "data: rec Hel"] ++ js "data: oops" :: [js "data: rec lo"]) =
      processLines demoParse initGenState ([js "data: rec Hel"] ++ [js "data: rec lo"]) ∧
    processLine demoParse (processLines demoParse initGenState [js "data: rec Hel"])
        (js "data: oops") =
      processLines demoParse initGenState [js "data: rec Hel"] :=
  ⟨by decide,
   c8_malformed_skip demoParse initGenState [js "data: rec Hel"] [js "data: rec lo"]
     (js "data: oops") (by decide) (by decide) (by decide) (by decide) (by decide)⟩

theorem processLines_content (parse : JsStr → Option StreamData)
    (recs : List (JsStr × String)) (st : GenState)
    (hst : st.currentEvent = ([] : JsStr)) (hstop : st.stopped = false)
    (hrec : ∀ r ∈ recs,
      jsStartsWith r.1 (js "event: ") = false ∧ r.1 ≠ ([] : JsStr) ∧
      jsStartsWith r.1 (js "data: ") = true ∧ jsTrim (jsSlice r.1 6) ≠ js "[DONE]" ∧
      parse (jsTrim (jsSlice r.1 6)) =
        some ⟨none, [⟨some ⟨some (JsVal.str r.2), none, none, none⟩⟩]⟩) :
    processLines parse st (recs.map Prod.fst) =
      { st with accContent := st.accContent ++ concatTexts (recs.map Prod.snd) } := by
  induction recs generalizing st with
  | nil =>
      simp only [List.map_nil, processLines, List.foldl_nil, concatTexts]
      cases st with
      | mk ce ac at' he sp => simp
  | cons r rest ih =>
      obtain ⟨h1, h2, h3, h4, h5⟩ := hrec r (List.mem_cons_self _ _)
      have hne : ¬(st.currentEvent = js "error") := by rw [hst]; decide
      have hline : processLine parse st r.1 =
          { st with accContent := st.accContent ++ r.2 } := by
        obtain ⟨ce, ac, at2, he, sp⟩ := st
        have hst2 : ce = [] := hst
        have hstop2 : sp = false := hstop
        have hne2 : ¬(ce = js "error") := hne
        subst hst2
        subst hstop2
        by_cases hemp : r.2 = ""
        · rw [hemp] at h5 ⊢
          simp [processLine, h1, h2, h3, h4, h5, hne2, jsOr, JsVal.isTruthy]
        · simp [processLine, h1, h2, h3, h4, h5, hne2, hemp, jsOr, JsVal.isTruthy]
      have hstep : processLines parse st ((r :: rest).map Prod.fst) =
          processLines parse { st with accContent := st.accContent ++ r.2 }
            (rest.map Prod.fst) := by
        simp only [List.map_cons, processLines, List.foldl_cons, hline]
      rw [hstep, ih { st with accContent := st.accContent ++ r.2 } hst hstop
        (fun x hx => hrec x (List.mem_cons_of_mem _ hx))]
      simp [concatTexts, String.append_assoc]

/-- Claim C1 counterexample: a session that accumulates the two Scenario C
fragments ("Hel", "lo") and is then cancelled.  The exit path does perform
the server re-fetch (`resynced = true`), and the placeholder's stored content
stays empty rather than becoming the concatenation "Hello" of the applied
fragments — both contrary to the claim. -/
theorem c1_cancel_counterexample :
    demoCancelRun.accContent = "Hello" ∧
    demoCancelRun.resynced = true ∧
    demoCancelRun.messages = [⟨"u1", "user", "q", ""⟩, ⟨"ph", "model", "", ""⟩] ∧
    ¬(demoCancelRun.messages = [⟨"u1", "user", "q", ""⟩, ⟨"ph", "model", "Hello", ""⟩]) := by
  decide

/-- Claim C1 as amended: cancelling after N valid answer-text fragments leaves
the session's accumulated buffer equal to their concatenation, but that buffer
is never written into the placeholder message, whose stored content stays
empty; and the cancellation exit path is not an error path, so it performs the
same server re-fetch (resync) as a clean finish. -/
theorem c1_cancel_amended (parse : JsStr → Option StreamData) (msgs0 : List SMessage)
    (msgId : String) (recs : List (JsStr × String)) (serverMsgs : Option (List SMessage))
    (hrec : ∀ r ∈ recs,
      jsStartsWith r.1 (js "event: ") = false ∧ r.1 ≠ ([] : JsStr) ∧
      jsStartsWith r.1 (js "data: ") = true ∧ jsTrim (jsSlice r.1 6) ≠ js "[DONE]" ∧
      parse (jsTrim (jsSlice r.1 6)) =
        some ⟨none, [⟨some ⟨some (JsVal.str r.2), none, none, none⟩⟩]⟩) :
    (generateResponse parse msgs0 msgId (recs.map Prod.fst)
        StreamEnd.aborted serverMsgs).accContent = concatTexts (recs.map Prod.snd) ∧
    (generateResponse parse msgs0 msgId (recs.map Prod.fst)
        StreamEnd.aborted serverMsgs).resynced = true ∧
    (generateResponse parse msgs0 msgId (recs.map Prod.fst)
        StreamEnd.aborted serverMsgs).hadError = false ∧
    (serverMsgs = none →
      (generateResponse parse msgs0 msgId (recs.map Prod.fst)
        StreamEnd.aborted serverMsgs).messages = msgs0 ++ [⟨msgId, "model", "", ""⟩]) := by
  have hproc := processLines_content parse recs initGenState rfl rfl hrec
  unfold generateResponse
  rw [hproc]
  refine ⟨by simp [initGenState], by simp [initGenState], by simp [initGenState], ?_⟩
  intro hs
  subst hs
  simp [initGenState]

/-- Witness for C1 as amended: the Scenario C fragments with a failing
re-fetch; the buffer is "Hello", the resync was attempted, and the local
placeholder stays empty. -/
theorem c1_cancel_amended_witness :
    (generateResponse demoParse demoSMsgs "ph"
        ([((js "data: rec Hel"), "Hel"), ((js "data: rec lo"), "lo")].map Prod.fst)
        StreamEnd.aborted none).accContent =
      concatTexts ([((js "data: rec Hel"), "Hel"), ((js "data: rec lo"), "lo")].map Prod.snd) ∧
    (generateResponse demoParse demoSMsgs "ph"
        ([((js "data: rec Hel"), "Hel"), ((js "data: rec lo"), "lo")].map Prod.fst)
        StreamEnd.aborted none).resynced = true ∧
    (generateResponse demoParse demoSMsgs "ph"
        ([((js "data: rec Hel"), "Hel"), ((js "data: rec lo"), "lo")].map Prod.fst)
        StreamEnd.aborted none).hadError = false ∧
    ((none : Option (List SMessage)) = none →
      (generateResponse demoParse demoSMsgs "ph"
          ([((js "data: rec Hel"), "Hel"), ((js "data: rec lo"), "lo")].map Prod.fst)
          StreamEnd.aborted none).messages = demoSMsgs ++ [⟨"ph", "model", "", ""⟩]) :=
  c1_cancel_amended demoParse demoSMsgs "ph"
    [((js "data: rec Hel"), "Hel"), ((js "data: rec lo"), "lo")] none (by decide)

/-- Claim C6 counterexample: a first update is rendered immediately and arms
the timer; a second update within the throttle window is pending when the
cleanup runs.  `finalizeStreaming` discards it: the render log still holds
only the first update, so the claim that cleanup flushes (renders) the
pending update is false. -/
theorem c6_flush_counterexample :
    (updateStreamingContent demoPend2 (updateStreamingContent demoPend1 initThrottle)).pending
        = some demoPend2 ∧
    finalizeStreaming (updateStreamingContent demoPend2
        (updateStreamingContent demoPend1 initThrottle)) =
      { pending := none, timerActive := false, renderLog := [demoPend1] } ∧
    ¬(demoPend2 ∈ (finalizeStreaming (updateStreamingContent demoPend2
        (updateStreamingContent demoPend1 initThrottle))).renderLog) := by
  decide

/-- Claim C6 as amended: an update still pending in the throttle when the
cleanup path runs is discarded, not flushed: `finalizeStreaming` clears the
pending slot and the timer and renders nothing — the render log is exactly
what it was before cleanup. -/
theorem c6_flush_amended (ts : ThrottleState) (u : PendingUpdate)
    (ht : ts.timerActive = true) :
    (updateStreamingContent u ts).pending = some u ∧
    finalizeStreaming (updateStreamingContent u ts) =
      { pending := none, timerActive := false, renderLog := ts.renderLog } := by
  constructor
  · simp [updateStreamingContent, ht]
  · simp [updateStreamingContent, finalizeStreaming, ht]

/-- Witness for C6 as amended: the second demo update pending behind an armed
timer is dropped by cleanup. -/
theorem c6_flush_amended_witness :
    (updateStreamingContent demoPend2
        (updateStreamingContent demoPend1 initThrottle)).pending = some demoPend2 ∧
    finalizeStreaming (updateStreamingContent demoPend2
        (updateStreamingContent demoPend1 initThrottle)) =
      { pending := none, timerActive := false,
        renderLog := (updateStreamingContent demoPend1 initThrottle).renderLog } :=
  c6_flush_amended (updateStreamingContent demoPend1 initThrottle) demoPend2 (by decide)

theorem searchScale_size (env : FitEnv) (name : String) (q : ℚ) (maxBytes : Nat) :
    ∀ (fuel : Nat) (low high : ℚ) (best : Option ImgFile),
      (∀ g, best = some g → g.size ≤ maxBytes) →
      ∀ g, searchScale env name q maxBytes fuel low high best = some g → g.size ≤ maxBytes := by
  intro fuel
  induction fuel with
  | zero => intro low high best hb g hg; exact hb g hg
  | succ n ih =>
      intro low high best hb g hg
      unfold searchScale at hg
      by_cases hc : (renderJpegFromImage env name ((low + high) / 2) q).size ≤ maxBytes
      · rw [if_pos hc] at hg
        refine ih _ _ _ (fun g2 hg2 => ?_) g hg
        injection hg2 with h
        rw [← h]
        exact hc
      · rw [if_neg hc] at hg
        exact ih _ _ _ hb g hg

theorem betterOverall_size (best bo : Option ImgFile) (maxBytes : Nat)
    (h1 : ∀ g, best = some g → g.size ≤ maxBytes)
    (h2 : ∀ g, bo = some g → g.size ≤ maxBytes) :
    ∀ g, betterOverall best bo = some g → g.size ≤ maxBytes := by
  intro g hg
  rcases best with _ | b <;> rcases bo with _ | o <;> simp only [betterOverall] at hg
  · exact Option.noConfusion hg
  · exact h2 g hg
  · exact h1 g hg
  · split at hg
    · exact h1 g hg
    · exact h2 g hg

theorem qualityLoop_size (env : FitEnv) (name : String) (maxBytes : Nat) :
    ∀ (qs : List ℚ) (bo : Option ImgFile),
      (∀ g, bo = some g → g.size ≤ maxBytes) →
      ∀ g, qualityLoop env name maxBytes qs bo = some g → g.size ≤ maxBytes := by
  intro qs
  induction qs with
  | nil =>
      intro bo hb g hg
      exact hb g (by simpa [qualityLoop] using hg)
  | cons q rest ih =>
      intro bo hb g hg
      have hbest : ∀ g2, searchScale env name q maxBytes 8 (1/10) 1 none = some g2 →
          g2.size ≤ maxBytes :=
        searchScale_size env name q maxBytes 8 (1/10) 1 none
          (fun g2 hg2 => Option.noConfusion hg2)
      have hbo := betterOverall_size _ bo maxBytes hbest hb
      have hg2 : (if (match betterOverall
              (searchScale env name q maxBytes 8 (1/10) 1 none) bo with
            | some c => decide ((maxBytes : ℚ) * (94/100) ≤ (c.size : ℚ))
            | none => false) = true then
          betterOverall (searchScale env name q maxBytes 8 (1/10) 1 none) bo
        else qualityLoop env name maxBytes rest
          (betterOverall (searchScale env name q maxBytes 8 (1/10) 1 none) bo)) =
          some g := hg
      split at hg2
      · exact hbo g hg2
      · exact ih _ hbo g hg2

theorem findLargest_size (env : FitEnv) (f : ImgFile) (maxBytes : Nat) :
    ∀ g, findLargestJpegUnderLimit env f maxBytes = some g → g.size ≤ maxBytes := by
  intro g hg
  unfold findLargestJpegUnderLimit at hg
  by_cases hd : env.decodes = true
  · rw [if_pos hd] at hg
    exact qualityLoop_size env f.name maxBytes _ none
      (fun g2 hg2 => Option.noConfusion hg2) g hg
  · rw [if_neg hd] at hg
    exact Option.noConfusion hg

/-- Claim C4 counterexample: a 10-byte image against a 5-byte budget where the
user chooses Keep Original: the fitter returns the original file, whose size
exceeds the budget — so "never returns a file whose size exceeds the budget"
is false as stated. -/
theorem c4_fit_counterexample :
    prepareImageForUpload demoEnv demoBig (some 5) true
        PrepChoice.secondary PrepChoice.primary = some demoBig ∧
    5 < demoBig.size := by
  decide

/-- Claim C4 as amended: for a present nonzero budget, a file already within
budget is returned byte-identical, and every returned file either satisfies
the budget or is the original returned through the explicit Keep Original
choice (which only exists outside the preflight context). -/
theorem c4_fit_amended (env : FitEnv) (f : ImgFile) (m : Nat) (allowKeep : Bool)
    (c1 c2 : PrepChoice) (hm : 0 < m) :
    (f.size ≤ m → prepareImageForUpload env f (some m) allowKeep c1 c2 = some f) ∧
    (∀ g, prepareImageForUpload env f (some m) allowKeep c1 c2 = some g →
      g.size ≤ m ∨ (c1 = PrepChoice.secondary ∧ g = f)) := by
  have hm0 : ¬((m == 0) = true) := by simp; omega
  constructor
  · intro hle
    simp only [prepareImageForUpload]
    rw [if_neg hm0, if_pos hle]
  · intro g hg
    simp only [prepareImageForUpload] at hg
    rw [if_neg hm0] at hg
    by_cases hle : f.size ≤ m
    · rw [if_pos hle] at hg
      injection hg with h
      left
      rw [← h]
      exact hle
    · rw [if_neg hle] at hg
      by_cases ht : (c1 == PrepChoice.tertiary || c1 == PrepChoice.cancel) = true
      · rw [if_pos ht] at hg
        exact Option.noConfusion hg
      · rw [if_neg ht] at hg
        by_cases hsec : (c1 == PrepChoice.secondary) = true
        · rw [if_pos hsec] at hg
          injection hg with h
          right
          exact ⟨by simpa using hsec, h.symm⟩
        · rw [if_neg hsec] at hg
          cases hconv : convertImageToJpeg env f with
          | none =>
              rw [hconv] at hg
              exact Option.noConfusion hg
          | some jpeg =>
              rw [hconv] at hg
              have hg3 : (if jpeg.size ≤ m then some jpeg
                  else if (!(c2 == PrepChoice.primary)) = true then none
                  else findLargestJpegUnderLimit env f m) = some g := hg
              by_cases hjle : jpeg.size ≤ m
              · rw [if_pos hjle] at hg3
                injection hg3 with h
                left
                rw [← h]
                exact hjle
              · rw [if_neg hjle] at hg3
                by_cases hc2 : (!(c2 == PrepChoice.primary)) = true
                · rw [if_pos hc2] at hg3
                  exact Option.noConfusion hg3
                · rw [if_neg hc2] at hg3
                  left
                  exact findLargest_size env f m g hg3

/-- Witness for C4 as amended: the demo 10-byte file against a 5-byte budget
through the conversion path (every outcome is within budget or a kept
original; here the search cannot fit and returns the failure outcome). -/
theorem c4_fit_amended_witness :
    (demoBig.size ≤ 5 → prepareImageForUpload demoEnv demoBig (some 5) true
        PrepChoice.primary PrepChoice.primary = some demoBig) ∧
    (∀ g, prepareImageForUpload demoEnv demoBig (some 5) true
        PrepChoice.primary PrepChoice.primary = some g →
      g.size ≤ 5 ∨ (PrepChoice.primary = PrepChoice.secondary ∧ g = demoBig)) :=
  c4_fit_amended demoEnv demoBig 5 true PrepChoice.primary PrepChoice.primary (by decide)

/-- Claim C5 counterexample: with a byte budget of zero the fitter returns the
original file unchanged — `!maxBytes` treats 0 like an absent budget — rather
than resolving to immediate failure; the user choices are never consulted. -/
theorem c5_zero_budget_counterexample :
    prepareImageForUpload demoEnv demoBig (some 0) true
        PrepChoice.tertiary PrepChoice.tertiary = some demoBig ∧
    0 < demoBig.size := by
  decide

/-- Claim C5 as amended: a budget of zero is treated exactly like an absent
budget — the file is returned unchanged, with no failure and no fitting —
while a source file that cannot be decoded resolves to failure on the
conversion path (present nonzero budget exceeded, user chooses conversion). -/
theorem c5_zero_budget_amended (env : FitEnv) (f : ImgFile) (allowKeep : Bool)
    (c1 c2 : PrepChoice) (m : Nat)
    (hdec : env.decodes = false) (hm : 0 < m) (hsize : m < f.size)
    (hc1 : c1 = PrepChoice.primary) :
    prepareImageForUpload env f (some 0) allowKeep c1 c2 = some f ∧
    prepareImageForUpload env f none allowKeep c1 c2 = some f ∧
    prepareImageForUpload env f (some m) allowKeep c1 c2 = none := by
  refine ⟨rfl, rfl, ?_⟩
  subst hc1
  have hm0 : ¬((m == 0) = true) := by simp; omega
  have hle : ¬(f.size ≤ m) := by omega
  have hconv : convertImageToJpeg env f = none := by
    unfold convertImageToJpeg
    rw [if_neg (by rw [hdec]; exact Bool.false_ne_true)]
  simp only [prepareImageForUpload]
  rw [if_neg hm0, if_neg hle, if_neg (by decide), if_neg (by decide), hconv]

/-- Witness for C5 as amended: the demo file with a zero budget is returned
unchanged, and the non-decodable demo environment fails on conversion. -/
theorem c5_zero_budget_amended_witness :
    prepareImageForUpload demoEnvNoDecode demoBig (some 0) true
        PrepChoice.primary PrepChoice.primary = some demoBig ∧
    prepareImageForUpload demoEnvNoDecode demoBig none true
        PrepChoice.primary PrepChoice.primary = some demoBig ∧
    prepareImageForUpload demoEnvNoDecode demoBig (some 5) true
        PrepChoice.primary PrepChoice.primary = none :=
  c5_zero_budget_amended demoEnvNoDecode demoBig true
    PrepChoice.primary PrepChoice.primary 5 rfl (by decide) (by decide) rfl

end Aisle
